import Mathlib

/-!
# Verification of the `Store` class (src/Store.ts)

This file is a shallow embedding of the keyed observable store implemented in
`src/Store.ts`, together with proofs about its behaviour.

Modelling decisions:

* JavaScript values are modelled by `JSVal`.  Objects carry an explicit
  identity (`Nat`) so that the reference-identity comparison `!==` used by the
  source for change detection, and the aliasing consequences of deep copying,
  can be stated.  In a well-formed execution every live object has a distinct
  identity, and all identities are below the allocation counter `nextId`
  carried by the store model.
* Record values (plain JS objects viewed as key → value maps) are modelled by
  `JSFields`, an association list preserving insertion order, mirroring the
  ordering behaviour of JS object properties that `Object.keys` and object
  spread rely on.
* Functions registered as listeners are opaque: a callback is identified by a
  `Nat` (its reference identity).  Invoking a callback is modelled by emitting
  an `Event` recording the callback identity and the argument it receives, so
  mutation functions return `Store × List Event`.
* The `setState` argument of the single-key `set` path is either a plain value
  or an updater function; the source discriminates with
  `value instanceof Function` (`isCallBack`), which corresponds exactly to the
  constructor of `SingleSet` because stored values are data, not functions.
-/

mutual

/-- A JavaScript value: `undefined`, `null`, a boolean, a number, a string, or
an object.  An object carries its reference identity and its fields. -/
inductive JSVal : Type where
  | undef : JSVal
  | jsnull : JSVal
  | bool : Bool → JSVal
  | num : Int → JSVal
  | str : String → JSVal
  | obj : Nat → JSFields → JSVal

/-- The own enumerable properties of a JS object, in insertion order. -/
inductive JSFields : Type where
  | nil : JSFields
  | cons : String → JSVal → JSFields → JSFields

end

/-- Property read `fields[k]`: the first binding of `k`, or `undefined` when
the property is absent. -/
def JSFields.get : JSFields → String → JSVal
  | .nil, _ => .undef
  | .cons k0 v rest, k => if k0 = k then v else rest.get k

/-- The `k in fields` test: whether the property exists. -/
def JSFields.hasKey : JSFields → String → Bool
  | .nil, _ => false
  | .cons k0 _ rest, k => k0 = k || rest.hasKey k

/-- Property write `fields[k] = v`: overwrites in place when the property
exists, appends a new property otherwise (JS insertion-order semantics). -/
def JSFields.set : JSFields → String → JSVal → JSFields
  | .nil, k, v => .cons k v .nil
  | .cons k0 v0 rest, k, v =>
      if k0 = k then .cons k0 v rest else .cons k0 v0 (rest.set k v)

/-- `delete fields[k]`: removes the property when present. -/
def JSFields.del : JSFields → String → JSFields
  | .nil, _ => .nil
  | .cons k0 v0 rest, k => if k0 = k then rest else .cons k0 v0 (rest.del k)

/-- `Object.keys(fields)`: the property names in insertion order. -/
def JSFields.keys : JSFields → List String
  | .nil => []
  | .cons k _ rest => k :: rest.keys

/-- Object spread `{...a, ...b}`: the properties of `a` in order, overridden
by `b` where `b` has the property, followed by the remaining properties of
`b` in order. -/
def JSFields.mergeWith : JSFields → JSFields → JSFields
  | a, .nil => a
  | a, .cons k v rest => (a.set k v).mergeWith rest

/-- JavaScript strict equality `===` (so `!==` is its negation): value
equality on primitives, reference identity on objects. -/
def jsStrictEq : JSVal → JSVal → Bool
  | .undef, .undef => true
  | .jsnull, .jsnull => true
  | .bool a, .bool b => a == b
  | .num a, .num b => a == b
  | .str a, .str b => a == b
  | .obj i _, .obj j _ => i == j
  | _, _ => false

mutual

/-- Modelled from the spec: the deep-copy utility `clone` imported from
`./Utils` (`src/Utils.ts` is not present under `src/`).  Per §6 of the spec,
given any value it returns a structurally equal value sharing no mutable
references with the input, recursing through nested containers.  Freshness of
the copy's references is modelled by renumbering every object identity from
the allocation counter, which is threaded through and returned. -/
def cloneV : Nat → JSVal → JSVal × Nat
  | n, .obj _ fs =>
      let r := cloneF (n + 1) fs
      (.obj n r.1, r.2)
  | n, v => (v, n)

/-- Modelled from the spec: `clone` on the fields of an object (see `cloneV`). -/
def cloneF : Nat → JSFields → JSFields × Nat
  | n, .nil => (.nil, n)
  | n, .cons k v rest =>
      let rv := cloneV n v
      let rr := cloneF rv.2 rest
      (.cons k rv.1 rr.1, rr.2)

end

mutual

/-- Erase object identities (deep-equality quotient): two values are
structurally ("deep") equal exactly when their erasures are equal. -/
def eraseV : JSVal → JSVal
  | .obj _ fs => .obj 0 (eraseF fs)
  | v => v

/-- Erase object identities in object fields (see `eraseV`). -/
def eraseF : JSFields → JSFields
  | .nil => .nil
  | .cons k v rest => .cons k (eraseV v) (eraseF rest)

end

mutual

/-- All object identities occurring in a value. -/
def idsV : JSVal → List Nat
  | .obj i fs => i :: idsF fs
  | _ => []

/-- All object identities occurring in object fields. -/
def idsF : JSFields → List Nat
  | .nil => []
  | .cons _ v rest => idsV v ++ idsF rest

end

/-- A listener registration from `src/Store.ts` lines 3-6: the subscribed
`key` and the callback `cb`, the latter identified by its reference. -/
structure Listener where
  key : String
  cb : Nat
deriving DecidableEq, Repr

/-- One callback invocation: which callback fired and the argument it was
given (the current value of its key, `src/Store.ts` line 185). -/
structure Event where
  cb : Nat
  arg : JSVal

/-- The state of a `Store<T>` instance (`src/Store.ts` lines 12-15): the live
state `_store`, the listener list `_listeners`, the default snapshot
`_default`, plus the allocation counter `nextId` for fresh object identities
produced by `clone`. -/
structure Store where
  _store : JSFields
  _listeners : List Listener
  _default : JSFields
  nextId : Nat

/-- The `setState` argument of the single-key `_set` path: either a literal
value or an updater function.  The source discriminates with
`setState instanceof Function` (`isCallBack`, lines 191-193); since stored
values are data and not functions, that test corresponds exactly to the
constructor here. -/
inductive SingleSet where
  | lit (v : JSVal)
  | updater (f : JSVal → JSVal)

/-- `isCallBack` (lines 191-193): `value instanceof Function`. -/
def isCallBack : SingleSet → Bool
  | .updater _ => true
  | .lit _ => false

/-- `isRecord` (lines 195-197): `data instanceof Object && !Array.isArray(data)`.
Arrays are represented separately (see `SetCall.mass`), `null` and primitives
are not `instanceof Object`. -/
def isRecordV : JSVal → Bool
  | .obj _ _ => true
  | _ => false

/-- `isRecordKey` (lines 199-201):
`typeof key === 'string' || typeof key === 'number' || typeof key === 'symbol'`
(symbols are not modelled). -/
def isRecordKey : JSVal → Bool
  | .str _ => true
  | .num _ => true
  | _ => false

/-- Property-key coercion for a value accepted by `isRecordKey`. -/
def keyOf : JSVal → String
  | .str s => s
  | .num n => toString n
  | _ => ""

/-- The fields of a value accepted by `isRecordV`. -/
def fieldsOf : JSVal → JSFields
  | .obj _ fs => fs
  | _ => .nil

/-- `_notifyListeners` (lines 182-188): iterate the listeners in registration
order and invoke those whose key is a member of `keys`, passing the current
value of that key (the `forEach` + `if` is rendered as `filter` + `map`). -/
def Store.notifyEvents (s : Store) (keys : List String) : List Event :=
  (s._listeners.filter (fun l => keys.contains l.key)).map
    (fun l => { cb := l.cb, arg := s._store.get l.key })

/-- `this.get(keys)` array form (lines 56-61): build a record mapping each
requested key to its current value. -/
def Store.getMany (s : Store) (keys : List String) : JSFields :=
  keys.foldl (fun result k => result.set k (s._store.get k)) .nil

/-- `_get` / single-key `get` (lines 63, 170-172). -/
def Store.getOne (s : Store) (k : String) : JSVal :=
  s._store.get k

/-- The single-key branch of `_set` (lines 150-167): read the old value, for
an updater compute `setState(state)` and compare `newState !== state`, for a
literal compare `state !== setState`; store `clone(new value)` under the key;
finally, when the comparison found a change, notify the listeners of `[key]`
from the updated store. -/
def Store.setSinglePath (s : Store) (key : String) (setState : SingleSet) : Store × List Event :=
  let state := s._store.get key
  match setState with
  | .updater f =>
      let newState := f state
      let haveToNotify := !(jsStrictEq newState state)
      let c := cloneV s.nextId newState
      let s' : Store := { s with _store := s._store.set key c.1, nextId := c.2 }
      (s', if haveToNotify then s'.notifyEvents [key] else [])
  | .lit v =>
      let haveToNotify := !(jsStrictEq state v)
      let c := cloneV s.nextId v
      let s' : Store := { s with _store := s._store.set key c.1, nextId := c.2 }
      (s', if haveToNotify then s'.notifyEvents [key] else [])

/-- The array branch of `_set` (lines 141-149): collect the current values of
`keys`, apply the mass callback, replace the state with
`clone({...this._store, ...setState(data)})`, and notify listeners for every
key of the array unconditionally (`haveToNotify = true`). -/
def Store.setMassPath (s : Store) (keys : List String) (f : JSFields → JSFields) : Store × List Event :=
  let data := s.getMany keys
  let merged := s._store.mergeWith (f data)
  let c := cloneF s.nextId merged
  let s' : Store := { s with _store := c.1, nextId := c.2 }
  (s', s'.notifyEvents keys)

/-- The record branch of `set` (lines 76-81): `Object.keys(data)` is walked in
order and each key is applied through the single-key `_set` path with the
looked-up value as a literal. -/
def setRecordGo (s : Store) (r : JSFields) : List String → Store × List Event
  | [] => (s, [])
  | k :: ks =>
      let p1 := s.setSinglePath k (.lit (r.get k))
      let p2 := setRecordGo p1.1 r ks
      (p2.1, p1.2 ++ p2.2)

/-- `set` with a record argument (lines 76-81). -/
def Store.setRecordPath (s : Store) (r : JSFields) : Store × List Event :=
  setRecordGo s r r.keys

/-- The argument shapes of the public `set` (lines 67-87).  `mass` is the
array first argument together with the mass callback of that overload;
`other` is any non-array first argument with an optional single-key
`setState` (absent models passing `undefined`). -/
inductive SetCall where
  | mass (keys : List String) (f : JSFields → JSFields)
  | other (data : JSVal) (setState : Option SingleSet)

/-- `set` (lines 70-87): `Array.isArray(data)` dispatches to the mass path;
otherwise `isRecord(data)` dispatches to the per-key record path;
otherwise `isRecordKey(data)` dispatches to the single-key path (a missing
`setState` arrives as the literal `undefined`); otherwise nothing happens and
the store is returned unchanged. -/
def Store.set (s : Store) : SetCall → Store × List Event
  | .mass keys f => s.setMassPath keys f
  | .other data setState =>
      if isRecordV data then s.setRecordPath (fieldsOf data)
      else if isRecordKey data then
        s.setSinglePath (keyOf data) (setState.getD (.lit .undef))
      else (s, [])

/-- `clearStore` (lines 104-108): reset the live state to a fresh empty
record. -/
def Store.clearStore (s : Store) : Store :=
  { s with _store := .nil }

/-- `clearListeners` (lines 110-114). -/
def Store.clearListeners (s : Store) : Store :=
  { s with _listeners := [] }

/-- `configureDefault` (lines 25-29): `this._default = clone(defaultData)`. -/
def Store.configureDefault (s : Store) (defaultData : JSFields) : Store :=
  let c := cloneF s.nextId defaultData
  { s with _default := c.1, nextId := c.2 }

/-- `restoreDefault` (lines 31-41): clear the live state, then
`this.set(defaultData)` or `this.set(this._default || {})`.  The argument of
that `set` call is a record (a non-array object), so `set` dispatches to the
per-key record branch; `_default` is initialised to `{}` and is never null
before `destroy('store')`, so `this._default || {}` is `this._default`. -/
def Store.restoreDefault (s : Store) (defaultData : Option JSFields) : Store × List Event :=
  let s1 := s.clearStore
  match defaultData with
  | some dd => s1.setRecordPath dd
  | none => s1.setRecordPath s1._default

/-- `getAll` (lines 43-45): the live state itself, no defensive copy. -/
def Store.getAll (s : Store) : JSFields :=
  s._store

/-- `setAll` (lines 47-51): `this._store = clone(data)`; no notification
path is involved. -/
def Store.setAll (s : Store) (data : JSFields) : Store × List Event :=
  let c := cloneF s.nextId data
  ({ s with _store := c.1, nextId := c.2 }, [])

/-- `_removeListener` (lines 178-180): keep exactly the registrations with
`i.key !== key && i.cb !== cb`. -/
def Store._removeListener (s : Store) (key : String) (cb : Nat) : Store :=
  { s with _listeners := s._listeners.filter (fun i => i.key != key && i.cb != cb) }

/-- `_addNewListener` (lines 174-176): push onto the listener list. -/
def Store._addNewListener (s : Store) (l : Listener) : Store :=
  { s with _listeners := s._listeners ++ [l] }

/-- `subscribe` (lines 89-96): `_removeListener(key, cb)` then push the new
registration.  (The returned unsubscriber is `_removeListener` bound to the
same pair and is covered by `unsubscribe`.) -/
def Store.subscribe (s : Store) (key : String) (cb : Nat) : Store :=
  (s._removeListener key cb)._addNewListener { key := key, cb := cb }

/-- `unsubscribe` (lines 98-102): `_removeListener(key, cb)`. -/
def Store.unsubscribe (s : Store) (key : String) (cb : Nat) : Store :=
  s._removeListener key cb

/-- `destroy('record', key)` (lines 120-121): `return delete this._store[key]`.
In JavaScript `delete` on a plain object's property evaluates to `true` both
when the property existed (it is removed) and when it was absent; it yields
`false` only for non-configurable properties, which the store's own data
properties never are. -/
def Store.destroyRecord (s : Store) (key : String) : Bool × Store :=
  (true, { s with _store := s._store.del key })

/-- The value the single-key `_set` branch writes and compares: the literal,
or the updater applied to the old value (lines 153-161). -/
def singleNewVal (st : SingleSet) (old : JSVal) : JSVal :=
  match st with
  | .lit v => v
  | .updater f => f old

/-! ## Basic lemmas about the record model -/

theorem JSFields.get_set_self : ∀ (fs : JSFields) (k : String) (v : JSVal),
    (fs.set k v).get k = v
  | .nil, k, v => by simp [JSFields.set, JSFields.get]
  | .cons k0 v0 rest, k, v => by
      by_cases h : k0 = k
      · simp [JSFields.set, h, JSFields.get]
      · simp [JSFields.set, h, JSFields.get, get_set_self rest k v]

theorem JSFields.get_set_ne : ∀ (fs : JSFields) (k k' : String) (v : JSVal),
    k' ≠ k → (fs.set k v).get k' = fs.get k'
  | .nil, k, k', v, h => by
      simp [JSFields.set, JSFields.get, Ne.symm h]
  | .cons k0 v0 rest, k, k', v, h => by
      by_cases h0 : k0 = k
      · subst h0
        simp [JSFields.set, JSFields.get, Ne.symm h]
      · simp [JSFields.set, h0, JSFields.get, get_set_ne rest k k' v h]

theorem JSFields.hasKey_false_of_not_mem_keys : ∀ (fs : JSFields) (k : String),
    ¬ k ∈ fs.keys → fs.hasKey k = false
  | .nil, _, _ => rfl
  | .cons k0 v0 rest, k, h => by
      simp [JSFields.keys] at h
      simp [JSFields.hasKey, Ne.symm h.1, hasKey_false_of_not_mem_keys rest k h.2]

theorem JSFields.hasKey_set : ∀ (fs : JSFields) (k k' : String) (v : JSVal),
    (fs.set k v).hasKey k' = (fs.hasKey k' || decide (k = k'))
  | .nil, k, k', v => by simp [JSFields.set, JSFields.hasKey]
  | .cons k0 v0 rest, k, k', v => by
      by_cases h0 : k0 = k
      · subst h0
        by_cases h1 : k0 = k'
        · simp [JSFields.set, JSFields.hasKey, h1]
        · simp [JSFields.set, JSFields.hasKey, h1]
      · simp [JSFields.set, h0, JSFields.hasKey, hasKey_set rest k k' v, Bool.or_assoc]

theorem JSFields.keys_set : ∀ (fs : JSFields) (k : String) (v : JSVal),
    (fs.set k v).keys = if fs.hasKey k then fs.keys else fs.keys ++ [k]
  | .nil, k, v => by simp [JSFields.set, JSFields.keys, JSFields.hasKey]
  | .cons k0 v0 rest, k, v => by
      by_cases h0 : k0 = k
      · simp [JSFields.set, h0, JSFields.keys, JSFields.hasKey]
      · simp only [JSFields.set, if_neg h0, JSFields.keys, JSFields.hasKey,
          keys_set rest k v]
        by_cases h1 : rest.hasKey k
        · simp [h0, h1]
        · simp [h0, h1]

theorem JSFields.get_eq_undef_of_hasKey_false : ∀ (fs : JSFields) (k : String),
    fs.hasKey k = false → fs.get k = .undef
  | .nil, _, _ => rfl
  | .cons k0 v0 rest, k, h => by
      simp [JSFields.hasKey, Bool.or_eq_false_iff] at h
      simp [JSFields.get, h.1, get_eq_undef_of_hasKey_false rest k h.2]

theorem JSFields.hasKey_del_self : ∀ (fs : JSFields) (k : String),
    fs.keys.Nodup → (fs.del k).hasKey k = false
  | .nil, _, _ => rfl
  | .cons k0 v0 rest, k, h => by
      rw [JSFields.keys, List.nodup_cons] at h
      by_cases h0 : k0 = k
      · subst h0
        simp only [JSFields.del, if_pos rfl]
        exact hasKey_false_of_not_mem_keys rest k0 h.1
      · simp [JSFields.del, h0, JSFields.hasKey, hasKey_del_self rest k h.2]

theorem JSFields.get_del_self (fs : JSFields) (k : String) (h : fs.keys.Nodup) :
    (fs.del k).get k = .undef :=
  JSFields.get_eq_undef_of_hasKey_false _ _ (JSFields.hasKey_del_self fs k h)

theorem jsStrictEq_undef_iff (v : JSVal) : jsStrictEq .undef v = true ↔ v = .undef := by
  cases v <;> simp [jsStrictEq]

theorem jsStrictEq_symm (a b : JSVal) : jsStrictEq a b = jsStrictEq b a := by
  cases a <;> cases b <;> simp [jsStrictEq, BEq.comm]

theorem JSFields.hasKey_iff_mem : ∀ (fs : JSFields) (k : String),
    fs.hasKey k = true ↔ k ∈ fs.keys
  | .nil, k => by simp [JSFields.hasKey, JSFields.keys]
  | .cons k0 v rest, k => by
      simp only [JSFields.hasKey, JSFields.keys, Bool.or_eq_true, decide_eq_true_eq,
        List.mem_cons, hasKey_iff_mem rest k]
      constructor
      · rintro (h | h)
        · exact Or.inl h.symm
        · exact Or.inr h
      · rintro (h | h)
        · exact Or.inl h.symm
        · exact Or.inr h

/-! ## Properties of the modelled deep copy -/

mutual

theorem cloneV_le : ∀ (n : Nat) (v : JSVal), n ≤ (cloneV n v).2
  | n, .undef => Nat.le_refl n
  | n, .jsnull => Nat.le_refl n
  | n, .bool _ => Nat.le_refl n
  | n, .num _ => Nat.le_refl n
  | n, .str _ => Nat.le_refl n
  | n, .obj _ fs => Nat.le_of_succ_le (cloneF_le (n + 1) fs)

theorem cloneF_le : ∀ (n : Nat) (fs : JSFields), n ≤ (cloneF n fs).2
  | n, .nil => Nat.le_refl n
  | n, .cons _ v rest =>
      Nat.le_trans (cloneV_le n v) (cloneF_le (cloneV n v).2 rest)

end

mutual

theorem eraseV_cloneV : ∀ (n : Nat) (v : JSVal), eraseV (cloneV n v).1 = eraseV v
  | _, .undef => rfl
  | _, .jsnull => rfl
  | _, .bool _ => rfl
  | _, .num _ => rfl
  | _, .str _ => rfl
  | n, .obj _ fs => congrArg (JSVal.obj 0) (eraseF_cloneF (n + 1) fs)

theorem eraseF_cloneF : ∀ (n : Nat) (fs : JSFields), eraseF (cloneF n fs).1 = eraseF fs
  | _, .nil => rfl
  | n, .cons k v rest => by
      show JSFields.cons k (eraseV (cloneV n v).1) (eraseF (cloneF (cloneV n v).2 rest).1)
          = JSFields.cons k (eraseV v) (eraseF rest)
      rw [eraseV_cloneV, eraseF_cloneF]

end

mutual

theorem idsV_cloneV : ∀ (n : Nat) (v : JSVal) (i : Nat),
    i ∈ idsV (cloneV n v).1 → n ≤ i ∧ i < (cloneV n v).2
  | _, .undef, i, hi => absurd hi (List.not_mem_nil i)
  | _, .jsnull, i, hi => absurd hi (List.not_mem_nil i)
  | _, .bool _, i, hi => absurd hi (List.not_mem_nil i)
  | _, .num _, i, hi => absurd hi (List.not_mem_nil i)
  | _, .str _, i, hi => absurd hi (List.not_mem_nil i)
  | n, .obj _ fs, i, hi => by
      have hi' : i = n ∨ i ∈ idsF (cloneF (n + 1) fs).1 := List.mem_cons.mp hi
      rcases hi' with h | h
      · subst h
        exact ⟨Nat.le_refl i, Nat.lt_of_lt_of_le (Nat.lt_succ_self i) (cloneF_le (i + 1) fs)⟩
      · have h2 := idsF_cloneF (n + 1) fs i h
        exact ⟨Nat.le_of_succ_le h2.1, h2.2⟩

theorem idsF_cloneF : ∀ (n : Nat) (fs : JSFields) (i : Nat),
    i ∈ idsF (cloneF n fs).1 → n ≤ i ∧ i < (cloneF n fs).2
  | _, .nil, i, hi => absurd hi (List.not_mem_nil i)
  | n, .cons k v rest, i, hi => by
      have hi' : i ∈ idsV (cloneV n v).1 ∨ i ∈ idsF (cloneF (cloneV n v).2 rest).1 :=
        List.mem_append.mp hi
      rcases hi' with h | h
      · have h1 := idsV_cloneV n v i h
        exact ⟨h1.1, Nat.lt_of_lt_of_le h1.2 (cloneF_le (cloneV n v).2 rest)⟩
      · have h2 := idsF_cloneF (cloneV n v).2 rest i h
        exact ⟨Nat.le_trans (cloneV_le n v) h2.1, h2.2⟩

end

theorem eraseF_get : ∀ (fs : JSFields) (k : String),
    (eraseF fs).get k = eraseV (fs.get k)
  | .nil, _ => rfl
  | .cons k0 v rest, k => by
      by_cases h : k0 = k <;> simp [eraseF, JSFields.get, h, eraseF_get rest k]

theorem keys_eraseF : ∀ (fs : JSFields), (eraseF fs).keys = fs.keys
  | .nil => rfl
  | .cons k v rest => by simp [eraseF, JSFields.keys, keys_eraseF rest]

theorem idsF_set_subset : ∀ (fs : JSFields) (k : String) (v : JSVal) (i : Nat),
    i ∈ idsF (fs.set k v) → i ∈ idsF fs ∨ i ∈ idsV v
  | .nil, k, v, i, hi => by
      simp only [JSFields.set, idsF, List.append_nil] at hi
      exact Or.inr hi
  | .cons k0 v0 rest, k, v, i, hi => by
      by_cases h : k0 = k
      · simp only [JSFields.set, if_pos h, idsF, List.mem_append] at hi
        simp only [idsF, List.mem_append]
        tauto
      · simp only [JSFields.set, if_neg h, idsF, List.mem_append] at hi
        simp only [idsF, List.mem_append]
        rcases hi with h1 | h1
        · tauto
        · rcases idsF_set_subset rest k v i h1 with h2 | h2 <;> tauto

theorem mergeWith_get : ∀ (b a : JSFields) (k : String), b.keys.Nodup →
    (a.mergeWith b).get k = if b.hasKey k then b.get k else a.get k
  | .nil, a, k, _ => by simp [JSFields.mergeWith, JSFields.hasKey]
  | .cons k0 v0 rest, a, k, h => by
      rw [JSFields.keys, List.nodup_cons] at h
      rw [show JSFields.mergeWith a (.cons k0 v0 rest) = (a.set k0 v0).mergeWith rest from rfl]
      rw [mergeWith_get rest (a.set k0 v0) k h.2]
      by_cases hk : rest.hasKey k
      · have hmem : k ∈ rest.keys := (JSFields.hasKey_iff_mem rest k).mp hk
        have hne : k0 ≠ k := fun he => h.1 (he ▸ hmem)
        simp [hk, JSFields.hasKey, hne, JSFields.get]
      · by_cases h0 : k0 = k
        · subst h0
          simp [hk, JSFields.hasKey, JSFields.get, JSFields.get_set_self]
        · simp [hk, JSFields.hasKey, h0, JSFields.get,
            JSFields.get_set_ne a k0 k v0 (fun he => h0 he.symm)]

theorem beq_str (a b : String) : (a == b) = decide (a = b) := by
  by_cases h : a = b <;> simp [h]

/-! ## Lemmas about the store operations -/

theorem setSinglePath_store (s : Store) (k : String) (st : SingleSet) :
    (s.setSinglePath k st).1._store
      = s._store.set k (cloneV s.nextId (singleNewVal st (s._store.get k))).1 := by
  cases st <;> rfl

theorem setSinglePath_listeners (s : Store) (k : String) (st : SingleSet) :
    (s.setSinglePath k st).1._listeners = s._listeners := by
  cases st <;> rfl

theorem setSinglePath_default (s : Store) (k : String) (st : SingleSet) :
    (s.setSinglePath k st).1._default = s._default := by
  cases st <;> rfl

theorem setSinglePath_nextId (s : Store) (k : String) (st : SingleSet) :
    (s.setSinglePath k st).1.nextId
      = (cloneV s.nextId (singleNewVal st (s._store.get k))).2 := by
  cases st <;> rfl

theorem setSinglePath_events_cb (s : Store) (k : String) (st : SingleSet) :
    ((s.setSinglePath k st).2).map Event.cb
      = if jsStrictEq (singleNewVal st (s._store.get k)) (s._store.get k)
        then []
        else (s._listeners.filter (fun l => l.key == k)).map Listener.cb := by
  cases st with
  | lit v =>
      have hsym : jsStrictEq v (s._store.get k) = jsStrictEq (s._store.get k) v :=
        jsStrictEq_symm _ _
      rcases Bool.eq_false_or_eq_true (jsStrictEq (s._store.get k) v) with h | h <;>
        simp [Store.setSinglePath, Store.notifyEvents, singleNewVal, h, hsym,
          List.map_map, Function.comp_def, beq_str]
  | updater f =>
      rcases Bool.eq_false_or_eq_true (jsStrictEq (f (s._store.get k)) (s._store.get k))
          with h | h <;>
        simp [Store.setSinglePath, Store.notifyEvents, singleNewVal, h,
          List.map_map, Function.comp_def, beq_str]

theorem notifyEvents_map_cb (s : Store) (keys : List String) :
    (s.notifyEvents keys).map Event.cb
      = (s._listeners.filter (fun l => keys.contains l.key)).map Listener.cb := by
  simp [Store.notifyEvents, List.map_map, Function.comp_def]

theorem setMassPath_events_cb (s : Store) (keys : List String) (f : JSFields → JSFields) :
    ((s.setMassPath keys f).2).map Event.cb
      = (s._listeners.filter (fun l => keys.contains l.key)).map Listener.cb := by
  simp only [Store.setMassPath]
  exact notifyEvents_map_cb _ keys

theorem setMassPath_store (s : Store) (keys : List String) (f : JSFields → JSFields) :
    (s.setMassPath keys f).1._store
      = (cloneF s.nextId (s._store.mergeWith (f (s.getMany keys)))).1 := rfl

theorem setRecordGo_listeners : ∀ (ks : List String) (s : Store) (r : JSFields),
    (setRecordGo s r ks).1._listeners = s._listeners
  | [], _, _ => rfl
  | k :: ks, s, r => by
      simp only [setRecordGo]
      rw [setRecordGo_listeners ks _ r, setSinglePath_listeners]

theorem setRecordGo_default : ∀ (ks : List String) (s : Store) (r : JSFields),
    (setRecordGo s r ks).1._default = s._default
  | [], _, _ => rfl
  | k :: ks, s, r => by
      simp only [setRecordGo]
      rw [setRecordGo_default ks _ r, setSinglePath_default]

theorem setRecordGo_nextId_le : ∀ (ks : List String) (s : Store) (r : JSFields),
    s.nextId ≤ (setRecordGo s r ks).1.nextId
  | [], s, _ => Nat.le_refl s.nextId
  | k :: ks, s, r => by
      simp only [setRecordGo]
      refine Nat.le_trans ?_ (setRecordGo_nextId_le ks _ r)
      rw [setSinglePath_nextId]
      exact cloneV_le _ _

theorem setRecordGo_get_erase : ∀ (ks : List String) (s : Store) (r : JSFields) (k : String),
    eraseV ((setRecordGo s r ks).1._store.get k)
      = if k ∈ ks then eraseV (r.get k) else eraseV (s._store.get k)
  | [], s, r, k => by simp [setRecordGo]
  | a :: ks, s, r, k => by
      simp only [setRecordGo]
      rw [setRecordGo_get_erase ks _ r k]
      by_cases hk : k ∈ ks
      · simp [hk, List.mem_cons]
      · rw [setSinglePath_store]
        by_cases hka : k = a
        · subst hka
          simp only [hk, if_false, JSFields.get_set_self, singleNewVal,
            eraseV_cloneV, List.mem_cons, true_or, if_true]
        · rw [JSFields.get_set_ne _ _ _ _ hka]
          have : ¬ k ∈ a :: ks := by simp [hka, hk]
          simp [hk, this]

theorem setRecordGo_keys : ∀ (ks : List String) (s : Store) (r : JSFields),
    ks.Nodup → (∀ k ∈ ks, s._store.hasKey k = false) →
    (setRecordGo s r ks).1._store.keys = s._store.keys ++ ks
  | [], s, _, _, _ => by simp [setRecordGo]
  | a :: ks, s, r, hnd, hfresh => by
      rw [List.nodup_cons] at hnd
      simp only [setRecordGo]
      have hf : ∀ k ∈ ks,
          (s.setSinglePath a (.lit (r.get a))).1._store.hasKey k = false := by
        intro k hk
        rw [setSinglePath_store, JSFields.hasKey_set]
        have h1 : s._store.hasKey k = false := hfresh k (List.mem_cons_of_mem a hk)
        have h2 : ¬ a = k := fun he => hnd.1 (he ▸ hk)
        simp [h1, h2]
      rw [setRecordGo_keys ks _ r hnd.2 hf]
      rw [setSinglePath_store, JSFields.keys_set, hfresh a (List.mem_cons_self a ks)]
      simp

theorem setRecordGo_events_cb : ∀ (ks : List String) (s : Store) (r : JSFields),
    ks.Nodup → (∀ k ∈ ks, s._store.get k = .undef) →
    ((setRecordGo s r ks).2).map Event.cb
      = ks.flatMap (fun k =>
          if jsStrictEq (r.get k) .undef then []
          else (s._listeners.filter (fun l => l.key == k)).map Listener.cb)
  | [], _, _, _, _ => rfl
  | a :: ks, s, r, hnd, hund => by
      rw [List.nodup_cons] at hnd
      simp only [setRecordGo]
      rw [List.map_append, setSinglePath_events_cb]
      have holda : s._store.get a = .undef := hund a (List.mem_cons_self a ks)
      have hund' : ∀ k ∈ ks, (s.setSinglePath a (.lit (r.get a))).1._store.get k = .undef := by
        intro k hk
        rw [setSinglePath_store]
        have h2 : ¬ k = a := fun he => hnd.1 (he ▸ hk)
        rw [JSFields.get_set_ne _ _ _ _ h2]
        exact hund k (List.mem_cons_of_mem a hk)
      rw [setRecordGo_events_cb ks _ r hnd.2 hund', setSinglePath_listeners]
      rw [List.flatMap_cons]
      rw [holda]
      rfl

theorem setRecordGo_ids : ∀ (ks : List String) (s : Store) (r : JSFields) (n : Nat),
    n ≤ s.nextId → (∀ i ∈ idsF s._store, n ≤ i) →
    ∀ i ∈ idsF (setRecordGo s r ks).1._store, n ≤ i
  | [], _, _, _, _, hst, i, hi => hst i hi
  | a :: ks, s, r, n, hn, hst, i, hi => by
      simp only [setRecordGo] at hi
      refine setRecordGo_ids ks _ r n ?_ ?_ i hi
      · rw [setSinglePath_nextId]
        exact Nat.le_trans hn (cloneV_le _ _)
      · intro j hj
        rw [setSinglePath_store] at hj
        rcases idsF_set_subset _ _ _ j hj with h1 | h1
        · exact hst j h1
        · exact Nat.le_trans hn (idsV_cloneV _ _ j h1).1

/-- Two lists of object identities are disjoint: no reference is shared. -/
def idDisjoint (a b : List Nat) : Bool :=
  a.all (fun i => decide (¬ i ∈ b))

theorem idDisjoint_of_split (a b : List Nat) (n : Nat)
    (ha : ∀ i ∈ a, n ≤ i) (hb : ∀ i ∈ b, i < n) : idDisjoint a b = true := by
  simp only [idDisjoint, List.all_eq_true, decide_eq_true_eq]
  intro i hi hib
  exact absurd (hb i hib) (Nat.not_lt.mpr (ha i hi))

/-- All object identities in the list are at or above the allocation bound
`n`: such values are fresh with respect to every reference existing before
the allocation counter reached `n`. -/
def idsAtLeast (n : Nat) (l : List Nat) : Bool :=
  l.all (fun i => decide (n ≤ i))

/-! ## The claims -/

/-- C4: `unsubscribe(key, cb)` retains a listener entry only when both
`entry.key !== key` and `entry.cb !== cb` hold, so every registration sharing
either the key or the callback reference with the target pair is removed; in
particular, after subscribing callback `cb` to key `a` and then to key `b`,
unsubscribing `(a, cb)` leaves no registration of `cb` on either key. -/
theorem unsubscribe_broad_removal (s : Store) (key : String) (cb : Nat)
    (a b : String) (c : Nat) :
    ((s.unsubscribe key cb)._listeners
        = s._listeners.filter (fun i => i.key != key && i.cb != cb))
    ∧ ((((s.subscribe a c).subscribe b c).unsubscribe a c)._listeners.all
        (fun l => l.cb != c)) = true := by
  constructor
  · rfl
  · rw [List.all_eq_true]
    intro l hl
    simp only [Store.unsubscribe, Store._removeListener] at hl
    have h2 := (List.mem_filter.mp hl).2
    simp only [Bool.and_eq_true] at h2
    exact h2.2

/-- C2 counterexample: with one registration `("a", cb 1)` present, calling
`subscribe("a", cb 2)` with a distinct callback on the same key evicts the
existing registration, so two distinct callbacks subscribed to the same key
do NOT coexist as two registrations, contrary to the claim. -/
theorem subscribe_evicts_same_key_counterexample :
    (Store.mk JSFields.nil [⟨"a", 1⟩] JSFields.nil 0)._listeners = [⟨"a", 1⟩]
    ∧ ((Store.mk JSFields.nil [⟨"a", 1⟩] JSFields.nil 0).subscribe "a" 2)._listeners
        = [⟨"a", 2⟩] := by
  constructor
  · rfl
  · rfl

/-- C2 (amended): `subscribe(key, cb)` removes, before registering the new
pair, every existing registration whose key equals `key` OR whose callback is
reference-identical to `cb` (the same broad rule `_removeListener` applies for
`unsubscribe`), then appends `(key, cb)`; consequently two distinct callbacks
subscribed to the same key do not coexist — after the call, every remaining
registration on `key` is the new callback itself. -/
theorem subscribe_dedup_or_semantics (s : Store) (key : String) (cb : Nat) :
    ((s.subscribe key cb)._listeners
        = s._listeners.filter (fun i => i.key != key && i.cb != cb) ++ [⟨key, cb⟩])
    ∧ ((s.subscribe key cb)._listeners.all
        (fun l => l.key != key || l.cb == cb)) = true := by
  constructor
  · rfl
  · rw [List.all_eq_true]
    intro l hl
    simp only [Store.subscribe, Store._addNewListener, Store._removeListener] at hl
    rcases List.mem_append.mp hl with h | h
    · have h2 := (List.mem_filter.mp h).2
      simp only [Bool.and_eq_true] at h2
      simp [h2.1]
    · have h3 := List.mem_singleton.mp h
      subst h3
      simp

/-- C10: calling `set` with a first argument that is neither an array, nor a
non-array object, nor a string/number/symbol key — e.g. `undefined`, `null`,
or a boolean, for all of which both `isRecord` and `isRecordKey` are false —
is a silent no-op: the live state is unchanged, no listener is invoked, and
the store itself is returned. -/
theorem set_invalid_key_noop (s : Store) (setState : Option SingleSet) (v : JSVal)
    (h1 : isRecordV v = false) (h2 : isRecordKey v = false) :
    s.set (.other v setState) = (s, []) := by
  simp [Store.set, h1, h2]

/-- C10 witness: `set(null)` on a concrete store with a listener leaves the
store untouched and fires nothing. -/
theorem set_invalid_key_noop_witness :
    isRecordV JSVal.jsnull = false ∧ isRecordKey JSVal.jsnull = false
    ∧ (Store.mk (JSFields.cons "a" (JSVal.num 1) JSFields.nil) [⟨"a", 5⟩] JSFields.nil 7).set
        (.other JSVal.jsnull none)
      = (Store.mk (JSFields.cons "a" (JSVal.num 1) JSFields.nil) [⟨"a", 5⟩] JSFields.nil 7, []) :=
  ⟨rfl, rfl, set_invalid_key_noop _ none JSVal.jsnull rfl rfl⟩

/-- C5: for a single-key `set(key, v)` or `set(key, fn)` (the single-key
branch of `_set`), listeners on `key` are notified if and only if the new
value (the literal, or the updater's result) is not reference-identical
(`!==`) to the old value; and when `key` was never set the prior value is
`undefined`, so any non-`undefined` new value triggers notification. -/
theorem set_single_notifies_iff_changed (s : Store) (k : String) (st : SingleSet) :
    (((s.setSinglePath k st).2).map Event.cb
      = if jsStrictEq (singleNewVal st (s._store.get k)) (s._store.get k)
        then []
        else (s._listeners.filter (fun l => l.key == k)).map Listener.cb)
    ∧ (s._store.hasKey k = false →
        jsStrictEq (singleNewVal st (s._store.get k)) JSVal.undef = false →
        ((s.setSinglePath k st).2).map Event.cb
          = (s._listeners.filter (fun l => l.key == k)).map Listener.cb) := by
  refine ⟨setSinglePath_events_cb s k st, ?_⟩
  intro hnk hneq
  have hget : s._store.get k = .undef := JSFields.get_eq_undef_of_hasKey_false _ _ hnk
  rw [hget] at hneq
  rw [setSinglePath_events_cb, hget, hneq]
  simp

/-- C5 witness: on an empty store with a listener on `"x"`, setting `"x"` to
`5` (old value `undefined`) fires that listener. -/
theorem set_single_notifies_witness :
    ((Store.mk JSFields.nil [⟨"x", 3⟩] JSFields.nil 0).setSinglePath "x"
        (.lit (JSVal.num 5))).2.map Event.cb = [3] := by
  have h := (set_single_notifies_iff_changed
      (Store.mk JSFields.nil [⟨"x", 3⟩] JSFields.nil 0) "x" (.lit (JSVal.num 5))).2 rfl rfl
  exact h.trans rfl

/-- C6: a mass-update `set(keys, callback)` (the array branch of `_set`)
notifies, after merging the callback's returned record into the state, the
listeners of every key in the supplied key array unconditionally — the
statement holds for every callback `f`, including one returning values
identical to the old ones, because `haveToNotify` is set to `true` on this
path without any comparison. -/
theorem set_mass_notifies_unconditionally (s : Store) (keys : List String)
    (f : JSFields → JSFields) :
    ((s.setMassPath keys f).2).map Event.cb
      = (s._listeners.filter (fun l => keys.contains l.key)).map Listener.cb :=
  setMassPath_events_cb s keys f

/-- C7: `setAll(data)` replaces the entire live state with a deep copy of
`data` — the new state is structurally equal to `data` (equal erasures) and
every object identity in it is freshly allocated (at or above the allocation
counter), so it shares no reference with `data` or with anything obtained
earlier — and it invokes no listener callback whatever listeners are
registered. -/
theorem setAll_copies_without_notifying (s : Store) (data : JSFields) :
    (s.setAll data).2 = []
    ∧ eraseF (s.setAll data).1._store = eraseF data
    ∧ idsAtLeast s.nextId (idsF (s.setAll data).1._store) = true := by
  refine ⟨rfl, eraseF_cloneF _ _, ?_⟩
  simp only [idsAtLeast, List.all_eq_true, decide_eq_true_eq]
  intro i hi
  exact (idsF_cloneF s.nextId data i hi).1

/-- C3 counterexample: on a store whose live state does not contain the key
`"a"`, `destroy('record', "a")` nevertheless returns `true` (JavaScript
`delete` evaluates to `true` for an absent property), refuting "returns true
if and only if the key was present". -/
theorem destroy_record_absent_counterexample :
    ¬ ((((Store.mk JSFields.nil [] JSFields.nil 0).destroyRecord "a").1 = true)
        ↔ ((Store.mk JSFields.nil [] JSFields.nil 0)._store.hasKey "a" = true)) := by
  decide

/-- C3 (amended): `destroy('record', k)` always returns `true` (JS `delete`
yields `false` only for non-configurable properties, which cannot occur
here), and afterwards the key is absent and `get(k)` returns `undefined`,
whether or not `k` was present before the call. -/
theorem destroy_record_spec (s : Store) (key : String) (h : s._store.keys.Nodup) :
    (s.destroyRecord key).1 = true
    ∧ (s.destroyRecord key).2.getOne key = JSVal.undef
    ∧ (s.destroyRecord key).2._store.hasKey key = false :=
  ⟨rfl, JSFields.get_del_self _ _ h, JSFields.hasKey_del_self _ _ h⟩

/-- C3 witness: destroying a present key returns `true` and leaves the key
absent with `get` returning `undefined`. -/
theorem destroy_record_spec_witness :
    (Store.mk (JSFields.cons "a" (JSVal.num 1) JSFields.nil) [] JSFields.nil 0)._store.keys.Nodup
    ∧ (((Store.mk (JSFields.cons "a" (JSVal.num 1) JSFields.nil) [] JSFields.nil 0).destroyRecord
          "a").1 = true
      ∧ ((Store.mk (JSFields.cons "a" (JSVal.num 1) JSFields.nil) [] JSFields.nil 0).destroyRecord
          "a").2.getOne "a" = JSVal.undef
      ∧ (((Store.mk (JSFields.cons "a" (JSVal.num 1) JSFields.nil) [] JSFields.nil 0).destroyRecord
          "a").2._store.hasKey "a" = false)) :=
  ⟨by decide, destroy_record_spec _ "a" (by decide)⟩

/-- C1 counterexample: a store with default `{a: 1}`, live state `{a: 0}` and
a listener registered on `"a"` — calling `restoreDefault()` DOES invoke that
listener (the restore path runs `this.set(...)`, the notifying setter). -/
theorem restore_default_counterexample :
    (Store.mk (JSFields.cons "a" (JSVal.num 0) JSFields.nil) [⟨"a", 7⟩]
        (JSFields.cons "a" (JSVal.num 1) JSFields.nil) 10)._listeners ≠ []
    ∧ (((Store.mk (JSFields.cons "a" (JSVal.num 0) JSFields.nil) [⟨"a", 7⟩]
        (JSFields.cons "a" (JSVal.num 1) JSFields.nil) 10).restoreDefault none).2).map
          Event.cb = [7] := by
  constructor
  · decide
  · rfl

/-- C1 (amended): `restoreDefault()` clears the live state and then re-applies
the default snapshot through `this.set(...)`, the per-key notifying setter;
since the cleared state makes every prior value `undefined`, a listener on key
`k` IS invoked (once per matching registration, in registration order)
whenever the restored record binds `k` to a non-`undefined` value, and no
listener fires for keys whose restored value is `undefined`. -/
theorem restore_default_notification (s : Store) (h : s._default.keys.Nodup) :
    ((s.restoreDefault none).2).map Event.cb
      = s._default.keys.flatMap (fun k =>
          if jsStrictEq (s._default.get k) JSVal.undef then []
          else (s._listeners.filter (fun l => l.key == k)).map Listener.cb) :=
  setRecordGo_events_cb s._default.keys s.clearStore s._default h (fun _ _ => rfl)

/-- C1 witness: on the concrete store of the counterexample shape, the amended
characterisation evaluates to the single notification of callback `7`. -/
theorem restore_default_notification_witness :
    (Store.mk (JSFields.cons "a" (JSVal.num 0) JSFields.nil) [⟨"a", 7⟩]
        (JSFields.cons "a" (JSVal.num 1) JSFields.nil) 10)._default.keys.Nodup
    ∧ (((Store.mk (JSFields.cons "a" (JSVal.num 0) JSFields.nil) [⟨"a", 7⟩]
        (JSFields.cons "a" (JSVal.num 1) JSFields.nil) 10).restoreDefault none).2).map
          Event.cb
      = ((Store.mk (JSFields.cons "a" (JSVal.num 0) JSFields.nil) [⟨"a", 7⟩]
        (JSFields.cons "a" (JSVal.num 1) JSFields.nil) 10))._default.keys.flatMap (fun k =>
          if jsStrictEq ((Store.mk (JSFields.cons "a" (JSVal.num 0) JSFields.nil) [⟨"a", 7⟩]
              (JSFields.cons "a" (JSVal.num 1) JSFields.nil) 10)._default.get k) JSVal.undef
          then []
          else (((Store.mk (JSFields.cons "a" (JSVal.num 0) JSFields.nil) [⟨"a", 7⟩]
              (JSFields.cons "a" (JSVal.num 1) JSFields.nil) 10))._listeners.filter
            (fun l => l.key == k)).map Listener.cb) :=
  ⟨by decide, restore_default_notification _ (by decide)⟩

/-- C8: after `configureDefault(D)` followed by `restoreDefault()`, the live
state returned by `getAll()` is deep-equal to `D` (same keys, and every field
erases to the corresponding field of `D`), and the live state shares no object
identity with the retained default snapshot — so mutating the object returned
by `getAll()` cannot change the snapshot a later `restoreDefault()` uses. -/
theorem configure_restore_deep_equal (s : Store) (D : JSFields) (h : D.keys.Nodup) :
    (((s.configureDefault D).restoreDefault none).1.getAll.keys = D.keys)
    ∧ (∀ k, eraseV (((s.configureDefault D).restoreDefault none).1.getAll.get k)
          = eraseV (D.get k))
    ∧ idDisjoint (idsF ((s.configureDefault D).restoreDefault none).1._store)
        (idsF ((s.configureDefault D).restoreDefault none).1._default) = true := by
  have hkeysDc : (cloneF s.nextId D).1.keys = D.keys := by
    have h2 := congrArg JSFields.keys (eraseF_cloneF s.nextId D)
    rwa [keys_eraseF, keys_eraseF] at h2
  have hndDc : (cloneF s.nextId D).1.keys.Nodup := by rw [hkeysDc]; exact h
  have hs2 : ((s.configureDefault D).restoreDefault none).1
      = (setRecordGo ((s.configureDefault D).clearStore) (cloneF s.nextId D).1
          (cloneF s.nextId D).1.keys).1 := rfl
  refine ⟨?_, ?_, ?_⟩
  · show ((s.configureDefault D).restoreDefault none).1._store.keys = D.keys
    rw [hs2, setRecordGo_keys (cloneF s.nextId D).1.keys
      ((s.configureDefault D).clearStore) (cloneF s.nextId D).1 hndDc (fun k _ => rfl)]
    exact hkeysDc
  · intro k
    show eraseV (((s.configureDefault D).restoreDefault none).1._store.get k)
        = eraseV (D.get k)
    rw [hs2, setRecordGo_get_erase]
    by_cases hk : k ∈ (cloneF s.nextId D).1.keys
    · rw [if_pos hk, ← eraseF_get, eraseF_cloneF, eraseF_get]
    · rw [if_neg hk]
      have hk' : ¬ k ∈ D.keys := by rwa [hkeysDc] at hk
      rw [JSFields.get_eq_undef_of_hasKey_false D k
        (JSFields.hasKey_false_of_not_mem_keys D k hk')]
      rfl
  · have hdef : ((s.configureDefault D).restoreDefault none).1._default
        = (cloneF s.nextId D).1 := by
      rw [hs2, setRecordGo_default]
      rfl
    rw [hdef, hs2]
    apply idDisjoint_of_split _ _ (cloneF s.nextId D).2
    · apply setRecordGo_ids
      · exact Nat.le_refl _
      · intro i hi
        exact absurd hi (List.not_mem_nil i)
    · intro i hi
      exact (idsF_cloneF s.nextId D i hi).2

/-- C8 witness: configuring the default `{a: {}}` on a fresh store and
restoring yields a live state whose field `a` deep-equals the default's, with
live state and default snapshot sharing no object identity. -/
theorem configure_restore_deep_equal_witness :
    (JSFields.cons "a" (JSVal.obj 0 JSFields.nil) JSFields.nil).keys.Nodup
    ∧ eraseV ((((Store.mk JSFields.nil [] JSFields.nil 3).configureDefault
          (JSFields.cons "a" (JSVal.obj 0 JSFields.nil) JSFields.nil)).restoreDefault
            none).1.getAll.get "a")
        = JSVal.obj 0 JSFields.nil
    ∧ idDisjoint
        (idsF (((Store.mk JSFields.nil [] JSFields.nil 3).configureDefault
          (JSFields.cons "a" (JSVal.obj 0 JSFields.nil) JSFields.nil)).restoreDefault
            none).1._store)
        (idsF (((Store.mk JSFields.nil [] JSFields.nil 3).configureDefault
          (JSFields.cons "a" (JSVal.obj 0 JSFields.nil) JSFields.nil)).restoreDefault
            none).1._default) = true := by
  have hw := configure_restore_deep_equal (Store.mk JSFields.nil [] JSFields.nil 3)
    (JSFields.cons "a" (JSVal.obj 0 JSFields.nil) JSFields.nil) (by decide)
  exact ⟨by decide, (hw.2.1 "a").trans rfl, hw.2.2⟩

/-- C9: a mass-update `set(keys, callback)` replaces the live state by a fresh
deep copy of the whole merged record `{...oldState, ...callback(data)}`: the
new state erases to the merged record, every field not listed in `keys` keeps
a deep-equal value (the callback's returned record, per its type, only binds
keys of the array), and every object identity in the new state is freshly
allocated — at or above the allocation counter — so references obtained
before the mass-update no longer alias any part of the live state. -/
theorem set_mass_fresh_copy (s : Store) (keys : List String) (f : JSFields → JSFields)
    (hsub : ∀ k ∈ (f (s.getMany keys)).keys, k ∈ keys)
    (hnd : (f (s.getMany keys)).keys.Nodup) :
    (eraseF (s.setMassPath keys f).1._store
        = eraseF (s._store.mergeWith (f (s.getMany keys))))
    ∧ (∀ k, ¬ k ∈ keys →
        eraseV ((s.setMassPath keys f).1._store.get k) = eraseV (s._store.get k))
    ∧ idsAtLeast s.nextId (idsF (s.setMassPath keys f).1._store) = true := by
  refine ⟨?_, ?_, ?_⟩
  · rw [setMassPath_store]
    exact eraseF_cloneF _ _
  · intro k hk
    rw [setMassPath_store, ← eraseF_get, eraseF_cloneF, eraseF_get]
    rw [mergeWith_get _ _ _ hnd]
    have hhk : (f (s.getMany keys)).hasKey k = false := by
      rcases Bool.eq_false_or_eq_true ((f (s.getMany keys)).hasKey k) with hb | hb
      · exact absurd (hsub k ((JSFields.hasKey_iff_mem _ k).mp hb)) hk
      · exact hb
    simp [hhk]
  · rw [setMassPath_store]
    simp only [idsAtLeast, List.all_eq_true, decide_eq_true_eq]
    intro i hi
    exact (idsF_cloneF _ _ i hi).1

/-- C9 witness: on a store `{b: {}}` with counter `4`, the identity mass
callback over `['a']` leaves field `b` deep-equal and renumbers every object
identity of the live state to at least `4`. -/
theorem set_mass_fresh_copy_witness :
    eraseV (((Store.mk (JSFields.cons "b" (JSVal.obj 1 JSFields.nil) JSFields.nil) []
          JSFields.nil 4).setMassPath ["a"] (fun r => r)).1._store.get "b")
      = eraseV ((Store.mk (JSFields.cons "b" (JSVal.obj 1 JSFields.nil) JSFields.nil) []
          JSFields.nil 4)._store.get "b")
    ∧ idsAtLeast 4
        (idsF (((Store.mk (JSFields.cons "b" (JSVal.obj 1 JSFields.nil) JSFields.nil) []
          JSFields.nil 4).setMassPath ["a"] (fun r => r)).1._store)) = true := by
  have hw := set_mass_fresh_copy
    (Store.mk (JSFields.cons "b" (JSVal.obj 1 JSFields.nil) JSFields.nil) [] JSFields.nil 4)
    ["a"] (fun r => r) (by decide) (by decide)
  exact ⟨hw.2.1 "b" (by decide), hw.2.2⟩
